import Mathlib

/-!
# devicecgroup: a verification development

A shallow embedding of `devicecgroup.go` (package `devicecgroup`) and of the parts of the Go
standard library it calls, followed by theorems about `Load`, `List`, `Allow`, `Deny` and
`HasChildren`.

Modelling conventions.

* A Go `string` is a list of Unicode code points (`GoString`); file contents are valid UTF-8
  text.  The newline and the slash are single bytes that never occur inside a multi-byte
  sequence, so splitting on them is the same on bytes and on code points.
* A Go `error` is the message its `Error()` method returns (`GoError`); a `nil` error is `none`.
* The file system is an explicit state `FS`: what `ioutil.ReadDir` answers for a path, the
  regular file stored under a path, and what the file system does to its files when one of
  them is written to.  Distinct path strings name distinct files (no links).
* A result `(T, error)` is a pair, except for `Load`, whose result is an `Except`: the
  zero-valued handle returned next to an error carries no information.
-/

/-! ## Go values -/

/-- Go `string`. -/
abbrev GoString := List Char

/-- Go `[]string`; the `nil` slice and the empty slice are both `[]`. -/
abbrev Strings := List GoString

/-- Go `error` value that is not `nil`, identified with its message. -/
structure GoError where
  msg : GoString
  deriving DecidableEq, Repr

/-- The methods of `os.FileInfo` the package calls: `Name()` and `IsDir()`. -/
structure FileInfo where
  Name : GoString
  IsDir : Bool
  deriving DecidableEq, Repr

/-- Go `[]os.FileInfo`. -/
abbrev FileInfos := List FileInfo

deriving instance DecidableEq for Except

/-! ## package unicode, package strings -/

/-- Go `unicode.IsSpace`: the Latin-1 spaces, then the `White_Space` table. -/
def Unicode.IsSpace (r : Char) : Bool :=
  if r.toNat ≤ 0xFF then
    r.toNat == 0x09 || r.toNat == 0x0A || r.toNat == 0x0B || r.toNat == 0x0C ||
      r.toNat == 0x0D || r.toNat == 0x20 || r.toNat == 0x85 || r.toNat == 0xA0
  else
    r.toNat == 0x1680 || (0x2000 ≤ r.toNat && r.toNat ≤ 0x200A) || r.toNat == 0x2028 ||
      r.toNat == 0x2029 || r.toNat == 0x202F || r.toNat == 0x205F || r.toNat == 0x3000

/-- Go `strings.TrimLeftFunc(s, unicode.IsSpace)`. -/
def Strings.TrimLeftSpace (s : GoString) : GoString :=
  s.dropWhile Unicode.IsSpace

/-- Go `strings.TrimRightFunc(s, unicode.IsSpace)`. -/
def Strings.TrimRightSpace (s : GoString) : GoString :=
  (s.reverse.dropWhile Unicode.IsSpace).reverse

/-- Go `strings.TrimSpace`: all leading and all trailing white space removed. -/
def Strings.TrimSpace (s : GoString) : GoString :=
  Strings.TrimRightSpace (Strings.TrimLeftSpace s)

/-- Go `strings.Split(s, sep)` for a one-byte separator: the substrings between the
separators, in order; a string without separator is returned as the only piece. -/
def Strings.Split (s : GoString) (sep : Char) : Strings :=
  match s with
  | [] => [[]]
  | c :: cs =>
    if c = sep then [] :: Strings.Split cs sep
    else
      match Strings.Split cs sep with
      | [] => [[c]]
      | piece :: pieces => (c :: piece) :: pieces

/-- Go `strings.Join(elems, sep)`. -/
def Strings.Join (elems : Strings) (sep : GoString) : GoString :=
  match elems with
  | [] => []
  | [e] => e
  | e :: rest => e ++ sep ++ Strings.Join rest sep

/-! ## package path/filepath (Unix) -/

/-- One path element processed by `filepath.Clean`; `out` holds the elements kept so far,
the most recent first. -/
def Filepath.cleanStep (rooted : Bool) (out : Strings) (elem : GoString) : Strings :=
  if elem = [] ∨ elem = ['.'] then out
  else if elem = ['.', '.'] then
    match out with
    | top :: below => if top = ['.', '.'] then elem :: out else below
    | [] => if rooted then [] else [elem]
  else elem :: out

/-- Go `filepath.Clean`: repeated separators collapsed, `.` elements dropped, `..` elements
resolved against the element before them, `..` at the root dropped. -/
def Filepath.Clean (path : GoString) : GoString :=
  let rooted : Bool := path.head? = some '/'
  let out := ((Strings.Split path '/').foldl (Filepath.cleanStep rooted) []).reverse
  if rooted then '/' :: Strings.Join out ['/']
  else if out = [] then ['.']
  else Strings.Join out ['/']

/-- Go `filepath.Join`: leading empty elements are ignored, the rest is joined with the
separator and cleaned; no non-empty element gives the empty string. -/
def Filepath.Join (elem : Strings) : GoString :=
  match elem with
  | [] => []
  | e :: rest => if e = [] then Filepath.Join rest else Filepath.Clean (Strings.Join (e :: rest) ['/'])

/-! ## The file system -/

/-- A regular file.  `requests` records the write requests the file has received, oldest
first.  `faults` is the operating system's verdict on them: entry `i`, when it is
`some (n, err)`, makes the request number `i` fail with `err` after `n` of its bytes were
stored; a missing entry or `none` lets the request through. -/
structure File where
  content : GoString
  requests : Strings
  readErr : Option GoError
  openErr : Option GoError
  faults : List (Option (Nat × GoError))
  deriving DecidableEq, Repr

/-- The state of the file system. -/
structure FS where
  /-- What listing a directory returns. -/
  dirs : GoString → Except GoError FileInfos
  /-- The regular file stored under a path. -/
  files : GoString → Option File
  /-- What the file system itself does to its files when the file under a path receives a
  write request.  A directory of regular files does nothing; the devices controller of the
  kernel changes what `devices.list` reports when a rule is written to `devices.allow` or
  `devices.deny`. -/
  onWrite : GoString → GoString → (GoString → Option File) → GoString → Option File

/-- The write requests `file` holds beyond those of the file stored under `path`. -/
def FS.received (fs : FS) (path : GoString) (file : File) : Strings :=
  match fs.files path with
  | some old => file.requests.drop old.requests.length
  | none => file.requests

/-- The files as the file system's own reaction to the write requests `file` received
leaves them: the reaction to each request, in order. -/
def FS.reaction (fs : FS) (path : GoString) (file : File) : GoString → Option File :=
  (fs.received path file).foldl (fun files request => fs.onWrite path request files) fs.files

/-- The file system after the file opened under `path` has become `file`: the file system
has reacted to the write requests the file received in the meantime, and `file` is what
is stored under `path`. -/
def FS.store (fs : FS) (path : GoString) (file : File) : FS :=
  { fs with files := fun p => if p = path then some file else fs.reaction path file p }

/-- The error of a request on a path that names no regular file. -/
def Os.errNotExist (op path : GoString) : GoError :=
  ⟨op ++ " ".toList ++ path ++ ": no such file or directory".toList⟩

/-- A file after a write request that was stored in full. -/
def File.accept (f : File) (b : GoString) : File :=
  { f with content := f.content ++ b, requests := f.requests ++ [b] }

/-- Go `(*os.File).Write` on a file opened with `O_APPEND`: the bytes go to the end of the
file; a fault stores only the first `n` bytes and returns its error. -/
def File.Write (f : File) (b : GoString) : File × Nat × Option GoError :=
  match (f.faults.get? f.requests.length).join with
  | none => (f.accept b, b.length, none)
  | some (n, err) =>
    ({ f with content := f.content ++ b.take n, requests := f.requests ++ [b] },
      (b.take n).length, some err)

/-- Go `ioutil.ReadDir`. -/
def Ioutil.ReadDir (fs : FS) (dirname : GoString) : Except GoError FileInfos :=
  fs.dirs dirname

/-- Go `ioutil.ReadFile`. -/
def Ioutil.ReadFile (fs : FS) (filename : GoString) : Except GoError GoString :=
  match fs.files filename with
  | none => .error (Os.errNotExist "open".toList filename)
  | some f =>
    match f.readErr with
    | some err => .error err
    | none => .ok f.content

/-- Go `os.OpenFile(name, os.O_APPEND|os.O_WRONLY, perm)`: without `O_CREATE` a missing
file is an error, without `O_TRUNC` the content is kept. -/
def Os.OpenFile (fs : FS) (name : GoString) : Except GoError File :=
  match fs.files name with
  | none => .error (Os.errNotExist "open".toList name)
  | some f =>
    match f.openErr with
    | some err => .error err
    | none => .ok f

/-- Go `fmt.Fprint(w, a)` for one string operand: the string is written to `w` as it is. -/
def Fmt.Fprint (w : File) (a : GoString) : File × Nat × Option GoError :=
  w.Write a

/-- Go `fmt.Errorf("not a device cgroup: %s", path)`. -/
def Fmt.Errorf_notADeviceCgroup (path : GoString) : GoError :=
  ⟨"not a device cgroup: ".toList ++ path⟩

/-! ## package devicecgroup -/

/-- The struct `DeviceCgroup`. -/
structure DeviceCgroup where
  path : GoString
  fprinter : File → GoString → File × Nat × Option GoError
  dirReader : FS → GoString → Except GoError FileInfos

/-- The function `containsFile`. -/
def containsFile (files : FileInfos) (name : GoString) : Bool :=
  match files with
  | [] => false
  | fileInfo :: rest => if fileInfo.Name = name then true else containsFile rest name

/-- The function `validateDeviceCgroup`; `none` is the `nil` error. -/
def validateDeviceCgroup (fs : FS) (path : GoString) : Option GoError :=
  match Ioutil.ReadDir fs path with
  | .error err => some err
  | .ok files =>
    if !containsFile files "devices.allow".toList ||
        !containsFile files "devices.deny".toList ||
        !containsFile files "devices.list".toList then
      some (Fmt.Errorf_notADeviceCgroup path)
    else none

/-- The function `Load`. -/
def Load (fs : FS) (path : GoString) : Except GoError DeviceCgroup :=
  match validateDeviceCgroup fs path with
  | some err => .error err
  | none => .ok { path := path, fprinter := Fmt.Fprint, dirReader := Ioutil.ReadDir }

/-- The method `getDevicesAllowPath`. -/
def DeviceCgroup.getDevicesAllowPath (d : DeviceCgroup) : GoString :=
  Filepath.Join [d.path, "devices.allow".toList]

/-- The method `getDevicesDenyPath`. -/
def DeviceCgroup.getDevicesDenyPath (d : DeviceCgroup) : GoString :=
  Filepath.Join [d.path, "devices.deny".toList]

/-- The method `getDevicesListPath`. -/
def DeviceCgroup.getDevicesListPath (d : DeviceCgroup) : GoString :=
  Filepath.Join [d.path, "devices.list".toList]

/-- The method `List`. -/
def DeviceCgroup.List (d : DeviceCgroup) (fs : FS) : Strings × Option GoError :=
  match Ioutil.ReadFile fs d.getDevicesListPath with
  | .error err => ([], some err)
  | .ok content =>
    if content.length = 0 then ([], none)
    else (Strings.Split (Strings.TrimSpace content) '\n', none)

/-- The method `writeEntryTo`; the writer after the calls is returned next to the error. -/
def DeviceCgroup.writeEntryTo (d : DeviceCgroup) (writer : File) (entries : Strings) :
    File × Option GoError :=
  match entries with
  | [] => (writer, none)
  | entry :: rest =>
    match d.fprinter writer (entry ++ ['\n']) with
    | (w, _, some err) => (w, some err)
    | (w, _, none) => d.writeEntryTo w rest

/-- The method `Allow`; the file system after the call is returned next to the error. -/
def DeviceCgroup.Allow (d : DeviceCgroup) (fs : FS) (entries : Strings) : FS × Option GoError :=
  match Os.OpenFile fs d.getDevicesAllowPath with
  | .error err => (fs, some err)
  | .ok file =>
    match d.writeEntryTo file entries with
    | (file, err) => (fs.store d.getDevicesAllowPath file, err)

/-- The method `Deny`; the file system after the call is returned next to the error. -/
def DeviceCgroup.Deny (d : DeviceCgroup) (fs : FS) (entries : Strings) : FS × Option GoError :=
  match Os.OpenFile fs d.getDevicesDenyPath with
  | .error err => (fs, some err)
  | .ok file =>
    match d.writeEntryTo file entries with
    | (file, err) => (fs.store d.getDevicesDenyPath file, err)

/-- The loop of `HasChildren` over the listing. -/
def hasChildrenLoop (dirs : FileInfos) : Bool × Option GoError :=
  match dirs with
  | [] => (false, none)
  | dir :: rest => if dir.IsDir then (true, none) else hasChildrenLoop rest

/-- The method `HasChildren`. -/
def DeviceCgroup.HasChildren (d : DeviceCgroup) (fs : FS) : Bool × Option GoError :=
  match d.dirReader fs d.path with
  | .error err => (false, some err)
  | .ok dirs => hasChildrenLoop dirs

/-! ## Vocabulary of the specification -/

/-- The bytes `e1 + "\n" + e2 + "\n" + ... + en + "\n"` for the entries `e1, ..., en`. -/
def writtenLines (entries : Strings) : GoString :=
  match entries with
  | [] => []
  | e :: rest => e ++ ['\n'] ++ writtenLines rest

/-- The string starts with white space. -/
def Strings.hasLeadingSpace (s : GoString) : Bool :=
  match s with
  | [] => false
  | c :: _ => Unicode.IsSpace c

/-- The string ends with white space. -/
def Strings.hasTrailingSpace (s : GoString) : Bool :=
  Strings.hasLeadingSpace s.reverse

/-- The string without its final newline, when it has one: a single trailing newline
removed. -/
def trimOneNewline (s : GoString) : GoString :=
  if s.getLast? = some '\n' then s.dropLast else s

/-- The result of `List` in the words of the specification: one trailing newline removed
from the content, the rest split at every newline. -/
def listSpec (content : GoString) : Strings :=
  Strings.Split (trimOneNewline content) '\n'

/-- A write of `b` through `pr` that succeeds: no error, and `b` stored at the end of the
file. -/
def WriteSucceeds (pr : File → GoString → File × Nat × Option GoError) (w : File)
    (b : GoString) : Prop :=
  (pr w b).1 = w.accept b ∧ (pr w b).2.2 = none

/-- The file after the lines of the entries were stored one after the other. -/
def File.acceptLines (w : File) (entries : Strings) : File :=
  match entries with
  | [] => w
  | e :: rest => File.acceptLines (w.accept (e ++ ['\n'])) rest

/-- Every write of the lines of the entries, issued in order starting from `w`, succeeds. -/
def AllWritesSucceed (pr : File → GoString → File × Nat × Option GoError) (w : File)
    (entries : Strings) : Prop :=
  match entries with
  | [] => True
  | e :: rest =>
    WriteSucceeds pr w (e ++ ['\n']) ∧ AllWritesSucceed pr (w.accept (e ++ ['\n'])) rest

/-- The file system after the file under `path` was deleted. -/
def FS.remove (fs : FS) (path : GoString) : FS :=
  { fs with files := fun p => if p = path then none else fs.files p }

/-! ## Concrete file systems -/

/-- A readable and writable file with the given content, no write request received yet. -/
def plainFile (content : GoString) : File :=
  { content := content, requests := [], readErr := none, openErr := none, faults := [] }

/-- The listing of a directory that holds the three control files. -/
def controlFiles : FileInfos :=
  [⟨"devices.allow".toList, false⟩, ⟨"devices.deny".toList, false⟩,
    ⟨"devices.list".toList, false⟩]

/-- A file system with the device cgroup `/cg`: the three control files under it, with the
given files stored for them, and the given further entries in its listing. -/
def cgroupFS (allow deny list : Option File) (others : FileInfos) : FS where
  dirs := fun p =>
    if p = "/cg".toList then .ok (controlFiles ++ others)
    else .error (Os.errNotExist "open".toList p)
  files := fun p =>
    if p = "/cg/devices.allow".toList then allow
    else if p = "/cg/devices.deny".toList then deny
    else if p = "/cg/devices.list".toList then list
    else none
  onWrite := fun _ _ files => files

/-- The handle `Load` returns for `/cg`. -/
def cgroup : DeviceCgroup :=
  { path := "/cg".toList, fprinter := Fmt.Fprint, dirReader := Ioutil.ReadDir }

/-- A file system whose `devices.list` holds `content`; the other two control files are
empty. -/
def listFS (content : GoString) : FS :=
  cgroupFS (some (plainFile [])) (some (plainFile [])) (some (plainFile content)) []

/-- The contract `Allow` and `Deny` share, stated for a target control file: the target is
opened for appending, the lines of the entries are written to it one after the other up to
the first failure, and the target is the only file the operation stores. -/
def appendEntriesTo (d : DeviceCgroup) (fs : FS) (target : GoString) (entries : Strings) :
    FS × Option GoError :=
  match Os.OpenFile fs target with
  | .error err => (fs, some err)
  | .ok file => (fs.store target (d.writeEntryTo file entries).1, (d.writeEntryTo file entries).2)

/-- A `devices.allow` that holds `content` and rejects its write request number `k` with
`err` after `n` bytes. -/
def faultyFile (content : GoString) (k n : Nat) (err : GoError) : File :=
  { content := content, requests := [], readErr := none, openErr := none,
    faults := List.replicate k none ++ [some (n, err)] }

/-- A file system whose `devices.allow` is the given file; `devices.deny` holds
`"b 8:0 r\n"` and `devices.list` holds `"c 1:5 rwm\n"`. -/
def allowFS (allow : Option File) : FS :=
  cgroupFS allow (some (plainFile "b 8:0 r\n".toList)) (some (plainFile "c 1:5 rwm\n".toList)) []

/-- A file system whose `devices.deny` is the given file; `devices.allow` holds
`"b 8:0 r\n"` and `devices.list` holds `"c 1:5 rwm\n"`. -/
def denyFS (deny : Option File) : FS :=
  cgroupFS (some (plainFile "b 8:0 r\n".toList)) deny (some (plainFile "c 1:5 rwm\n".toList)) []

/-- The file system does nothing of its own when the file under `path` is written to. -/
def FS.Inert (fs : FS) (path : GoString) : Prop :=
  ∀ (request : GoString) (files : GoString → Option File), fs.onWrite path request files = files

/-- The rules a `devices.list` content reports, one a line. -/
def whitelistOf (content : GoString) : Strings :=
  (Strings.Split content '\n').filter (fun line => line ≠ [])

/-- The whitelist of the devices controller after a rule was written to `devices.allow`, as
`system_tests/devicecgroup_system_test.go` observes it: the rule `a` allows every device,
which is reported as `a *:* rwm`; another rule is added after the rules reported so far. -/
def kernelAllow (whitelist : Strings) (rule : GoString) : Strings :=
  if rule = "a".toList then ["a *:* rwm".toList]
  else if whitelist = ["a *:* rwm".toList] ∨ rule ∈ whitelist then whitelist
  else whitelist ++ [rule]

/-- The whitelist of the devices controller after a rule was written to `devices.deny`, as
`system_tests/devicecgroup_system_test.go` observes it: the rule `a` leaves no device
allowed; another rule is no longer reported. -/
def kernelDeny (whitelist : Strings) (rule : GoString) : Strings :=
  if rule = "a".toList then []
  else whitelist.filter (fun line => line ≠ rule)

/-- The reaction of the devices controller for the cgroup `/cg`: a line written to
`devices.allow` or `devices.deny` changes what `devices.list` reports. -/
def kernelOnWrite (path request : GoString) (files : GoString → Option File) :
    GoString → Option File :=
  fun p =>
    if p = "/cg/devices.list".toList then
      (files p).map fun list =>
        if path = "/cg/devices.allow".toList then
          { list with
            content := writtenLines (kernelAllow (whitelistOf list.content) (trimOneNewline request)) }
        else if path = "/cg/devices.deny".toList then
          { list with
            content := writtenLines (kernelDeny (whitelistOf list.content) (trimOneNewline request)) }
        else list
    else files p

/-- The cgroup `/cg` under the devices controller of the kernel, with `devices.list`
reporting `list`. -/
def kernelFS (list : GoString) : FS :=
  { cgroupFS (some (plainFile [])) (some (plainFile [])) (some (plainFile list)) [] with
    onWrite := kernelOnWrite }

/-! # Theorems -/

/-! ## Facts about the string functions -/

theorem Strings.Split_ne_nil (s : GoString) (sep : Char) : Strings.Split s sep ≠ [] := by
  induction s with
  | nil => simp [Strings.Split]
  | cons c cs ih =>
    unfold Strings.Split
    split
    · simp
    · split
      · simp
      · simp

theorem Strings.Split_cons_ne (c : Char) (cs : GoString) (sep : Char) (h : c ≠ sep) :
    ∃ piece pieces, Strings.Split cs sep = piece :: pieces ∧
      Strings.Split (c :: cs) sep = (c :: piece) :: pieces := by
  cases hs : Strings.Split cs sep with
  | nil => exact absurd hs (Strings.Split_ne_nil cs sep)
  | cons piece pieces =>
    refine ⟨piece, pieces, rfl, ?_⟩
    rw [Strings.Split, if_neg h, hs]

theorem Strings.Split_not_mem (s : GoString) (sep : Char) (h : sep ∉ s) :
    Strings.Split s sep = [s] := by
  induction s with
  | nil => rfl
  | cons c cs ih =>
    have hc : c ≠ sep := fun e => h (by simp [e])
    have hcs : sep ∉ cs := fun e => h (by simp [e])
    obtain ⟨piece, pieces, h1, h2⟩ := Strings.Split_cons_ne c cs sep hc
    rw [h2]
    rw [ih hcs] at h1
    simp at h1
    simp [h1.1, h1.2]

theorem Strings.Split_append (a b : GoString) (sep : Char) :
    Strings.Split (a ++ sep :: b) sep = Strings.Split a sep ++ Strings.Split b sep := by
  induction a with
  | nil => simp [Strings.Split]
  | cons c cs ih =>
    by_cases hc : c = sep
    · subst hc
      simp only [List.cons_append]
      rw [Strings.Split, if_pos rfl, ih]
      conv_rhs => rw [Strings.Split, if_pos rfl]
      simp
    · obtain ⟨piece, pieces, h1, h2⟩ := Strings.Split_cons_ne c cs sep hc
      obtain ⟨piece2, pieces2, h3, h4⟩ := Strings.Split_cons_ne c (cs ++ sep :: b) sep hc
      simp only [List.cons_append]
      rw [h4, h2]
      rw [ih, h1] at h3
      simp at h3
      simp [h3.1, h3.2]

theorem Strings.Join_cons (e : GoString) (rest : Strings) (sep : GoString) (h : rest ≠ []) :
    Strings.Join (e :: rest) sep = e ++ sep ++ Strings.Join rest sep := by
  cases rest with
  | nil => exact absurd rfl h
  | cons r rs => simp [Strings.Join]

theorem Strings.Join_Split (s : GoString) (sep : Char) :
    Strings.Join (Strings.Split s sep) [sep] = s := by
  induction s with
  | nil => rfl
  | cons c cs ih =>
    by_cases hc : c = sep
    · subst hc
      rw [Strings.Split, if_pos rfl, Strings.Join_cons _ _ _ (Strings.Split_ne_nil cs c), ih]
      simp
    · obtain ⟨piece, pieces, h1, h2⟩ := Strings.Split_cons_ne c cs sep hc
      rw [h2]
      rw [h1] at ih
      cases pieces with
      | nil =>
        simp only [Strings.Join] at ih ⊢
        rw [ih]
      | cons p ps =>
        rw [Strings.Join_cons _ _ _ (by simp)] at ih ⊢
        rw [← ih]
        simp

theorem Strings.Split_not_mem_piece (s : GoString) (sep : Char) :
    ∀ piece ∈ Strings.Split s sep, sep ∉ piece := by
  induction s with
  | nil => simp [Strings.Split]
  | cons c cs ih =>
    by_cases hc : c = sep
    · subst hc
      rw [Strings.Split, if_pos rfl]
      intro piece hp
      rcases List.mem_cons.mp hp with h | h
      · simp [h]
      · exact ih piece h
    · obtain ⟨piece, pieces, h1, h2⟩ := Strings.Split_cons_ne c cs sep hc
      rw [h2]
      rw [h1] at ih
      intro q hq
      rcases List.mem_cons.mp hq with h | h
      · subst h
        intro hmem
        rcases List.mem_cons.mp hmem with h' | h'
        · exact hc h'.symm
        · exact ih piece (by simp) h'
      · exact ih q (by simp [h])

theorem Strings.Split_Join (elems : Strings) (sep : Char) (hne : elems ≠ [])
    (h : ∀ e ∈ elems, sep ∉ e) : Strings.Split (Strings.Join elems [sep]) sep = elems := by
  induction elems with
  | nil => exact absurd rfl hne
  | cons e rest ih =>
    cases rest with
    | nil =>
      simp only [Strings.Join]
      exact Strings.Split_not_mem e sep (h e (by simp))
    | cons r rs =>
      rw [Strings.Join_cons _ _ _ (by simp)]
      have : e ++ [sep] ++ Strings.Join (r :: rs) [sep] = e ++ sep :: Strings.Join (r :: rs) [sep] := by
        simp
      rw [this, Strings.Split_append, Strings.Split_not_mem e sep (h e (by simp)),
        ih (by simp) (fun x hx => h x (by simp [hx]))]
      simp

/-- The pieces of `Strings.Split` as the loop of Go's `genSplit` finds them: the text before
the first separator, then the pieces of the text after it. -/
theorem Strings.Split_eq_index (s : GoString) (sep : Char) :
    Strings.Split s sep =
      s.takeWhile (fun c => c != sep) ::
        (match s.dropWhile (fun c => c != sep) with
         | [] => []
         | _ :: rest => Strings.Split rest sep) := by
  induction s with
  | nil => rfl
  | cons c cs ih =>
    by_cases hc : c = sep
    · subst hc
      rw [Strings.Split, if_pos rfl]
      simp
    · obtain ⟨piece, pieces, h1, h2⟩ := Strings.Split_cons_ne c cs sep hc
      rw [h2]
      rw [h1] at ih
      simp at ih
      simp [hc, ih.1, ih.2]

theorem Strings.TrimLeftSpace_eq_self (s : GoString) (h : Strings.hasLeadingSpace s = false) :
    Strings.TrimLeftSpace s = s := by
  cases s with
  | nil => rfl
  | cons c cs =>
    simp only [Strings.hasLeadingSpace] at h
    simp [Strings.TrimLeftSpace, List.dropWhile, h]

theorem Strings.TrimRightSpace_eq_self (s : GoString) (h : Strings.hasTrailingSpace s = false) :
    Strings.TrimRightSpace s = s := by
  have := Strings.TrimLeftSpace_eq_self s.reverse h
  simp only [Strings.TrimLeftSpace] at this
  simp [Strings.TrimRightSpace, this]

theorem Strings.TrimRightSpace_append_space (s : GoString) (c : Char)
    (h : Unicode.IsSpace c = true) :
    Strings.TrimRightSpace (s ++ [c]) = Strings.TrimRightSpace s := by
  simp [Strings.TrimRightSpace, List.dropWhile, h]

theorem Strings.TrimSpace_eq_self (s : GoString) (h1 : Strings.hasLeadingSpace s = false)
    (h2 : Strings.hasTrailingSpace s = false) : Strings.TrimSpace s = s := by
  rw [Strings.TrimSpace, Strings.TrimLeftSpace_eq_self s h1, Strings.TrimRightSpace_eq_self s h2]

theorem Strings.dropWhile_eq_nil_of_all (s : GoString) (h : ∀ c ∈ s, Unicode.IsSpace c = true) :
    s.dropWhile Unicode.IsSpace = [] := by
  induction s with
  | nil => rfl
  | cons c cs ih =>
    rw [List.dropWhile, h c (by simp)]
    exact ih (fun x hx => h x (by simp [hx]))

theorem Strings.TrimSpace_eq_nil_iff (s : GoString) :
    Strings.TrimSpace s = [] ↔ ∀ c ∈ s, Unicode.IsSpace c = true := by
  constructor
  · intro h c hc
    simp only [Strings.TrimSpace, Strings.TrimRightSpace, Strings.TrimLeftSpace,
      List.reverse_eq_nil_iff] at h
    rw [List.dropWhile_eq_nil_iff] at h
    by_contra hns
    have hmem : c ∈ s.dropWhile Unicode.IsSpace := by
      clear h
      induction s with
      | nil => simp at hc
      | cons a as ih =>
        rw [List.dropWhile]
        rcases List.mem_cons.mp hc with e | e
        · subst e
          simp [hns]
        · split
          · exact ih e
          · simp [e]
    have := h c (by simpa using hmem)
    exact hns this
  · intro h
    simp [Strings.TrimSpace, Strings.TrimRightSpace, Strings.TrimLeftSpace,
      Strings.dropWhile_eq_nil_of_all s h]

theorem Strings.isSpace_newline : Unicode.IsSpace '\n' = true := by decide

theorem writtenLines_eq_Join (entries : Strings) (h : entries ≠ []) :
    writtenLines entries = Strings.Join entries ['\n'] ++ ['\n'] := by
  induction entries with
  | nil => exact absurd rfl h
  | cons e rest ih =>
    cases rest with
    | nil => simp [writtenLines, Strings.Join]
    | cons r rs =>
      have ih2 := ih (by simp)
      rw [Strings.Join_cons _ _ _ (by simp)]
      show e ++ ['\n'] ++ writtenLines (r :: rs) = _
      rw [ih2]
      simp

theorem writtenLines_append (a b : Strings) :
    writtenLines (a ++ b) = writtenLines a ++ writtenLines b := by
  induction a with
  | nil => rfl
  | cons e rest ih => simp [writtenLines, ih]

theorem Strings.hasLeadingSpace_append (a b : GoString) (h : a ≠ []) :
    Strings.hasLeadingSpace (a ++ b) = Strings.hasLeadingSpace a := by
  cases a with
  | nil => exact absurd rfl h
  | cons c cs => rfl

theorem Strings.hasTrailingSpace_append (a b : GoString) (h : b ≠ []) :
    Strings.hasTrailingSpace (a ++ b) = Strings.hasTrailingSpace b := by
  simp only [Strings.hasTrailingSpace, List.reverse_append]
  exact Strings.hasLeadingSpace_append _ _ (by simpa using h)

theorem Strings.Join_hasLeadingSpace (e : GoString) (rest : Strings) (sep : GoString)
    (h : e ≠ []) :
    Strings.hasLeadingSpace (Strings.Join (e :: rest) sep) = Strings.hasLeadingSpace e := by
  cases rest with
  | nil => rfl
  | cons r rs =>
    rw [Strings.Join_cons _ _ _ (by simp), List.append_assoc]
    exact Strings.hasLeadingSpace_append _ _ h

theorem Strings.Join_ne_nil (elems : Strings) (sep : GoString) (hne : elems ≠ [])
    (h : ∀ e ∈ elems, e ≠ []) : Strings.Join elems sep ≠ [] := by
  cases elems with
  | nil => exact absurd rfl hne
  | cons e rest =>
    cases rest with
    | nil => simpa [Strings.Join] using h e (by simp)
    | cons r rs =>
      rw [Strings.Join_cons _ _ _ (by simp)]
      simp [h e (by simp)]

theorem Strings.Join_hasTrailingSpace (elems : Strings) (sep : GoString) (hne : elems ≠ [])
    (h : ∀ e ∈ elems, e ≠ [] ∧ Strings.hasTrailingSpace e = false) :
    Strings.hasTrailingSpace (Strings.Join elems sep) = false := by
  induction elems with
  | nil => exact absurd rfl hne
  | cons e rest ih =>
    cases rest with
    | nil => simpa [Strings.Join] using (h e (by simp)).2
    | cons r rs =>
      rw [Strings.Join_cons _ _ _ (by simp)]
      have hr : Strings.Join (r :: rs) sep ≠ [] :=
        Strings.Join_ne_nil _ _ (by simp) (fun x hx => (h x (by simp [hx])).1)
      rw [Strings.hasTrailingSpace_append _ _ hr]
      exact ih (by simp) (fun x hx => h x (by simp [hx]))

/-- Trimming the bytes written for well-formed entries removes the final newline only. -/
theorem Strings.TrimSpace_writtenLines (entries : Strings) (hne : entries ≠ [])
    (h : ∀ e ∈ entries, e ≠ [] ∧ Strings.hasLeadingSpace e = false ∧
      Strings.hasTrailingSpace e = false) :
    Strings.TrimSpace (writtenLines entries) = Strings.Join entries ['\n'] := by
  rw [writtenLines_eq_Join entries hne]
  have hj : Strings.Join entries ['\n'] ≠ [] :=
    Strings.Join_ne_nil _ _ hne (fun e he => (h e he).1)
  have hl : Strings.hasLeadingSpace (Strings.Join entries ['\n']) = false := by
    cases entries with
    | nil => exact absurd rfl hne
    | cons e rest =>
      rw [Strings.Join_hasLeadingSpace e rest _ (h e (by simp)).1]
      exact (h e (by simp)).2.1
  have ht : Strings.hasTrailingSpace (Strings.Join entries ['\n']) = false :=
    Strings.Join_hasTrailingSpace _ _ hne (fun e he => ⟨(h e he).1, (h e he).2.2⟩)
  rw [Strings.TrimSpace, Strings.TrimLeftSpace_eq_self _ (by
    rw [Strings.hasLeadingSpace_append _ _ hj]; exact hl),
    Strings.TrimRightSpace_append_space _ _ Strings.isSpace_newline,
    Strings.TrimRightSpace_eq_self _ ht]

/-! ## Facts about the paths of the control files -/

theorem Strings.Join_concat (elems : Strings) (sep : GoString) :
    ∃ pre : GoString, ∀ name : GoString, Strings.Join (elems ++ [name]) sep = pre ++ name := by
  induction elems with
  | nil => exact ⟨[], fun name => rfl⟩
  | cons e rest ih =>
    obtain ⟨pre, hpre⟩ := ih
    refine ⟨e ++ sep ++ pre, fun name => ?_⟩
    rw [List.cons_append, Strings.Join_cons _ _ _ (by simp), hpre name]
    simp

theorem Filepath.cleanStep_name (rooted : Bool) (out : Strings) (name : GoString)
    (h2 : name ≠ []) (h3 : name ≠ ['.']) (h4 : name ≠ ['.', '.']) :
    Filepath.cleanStep rooted out name = name :: out := by
  simp [Filepath.cleanStep, h2, h3, h4]

/-- The path of a control file is a part that depends on the directory only, followed by
the name of the file. -/
theorem Filepath.Join_name (p : GoString) :
    ∃ pre : GoString, ∀ name : GoString, '/' ∉ name → name ≠ [] → name ≠ ['.'] →
      name ≠ ['.', '.'] → Filepath.Join [p, name] = pre ++ name := by
  by_cases hp : p = []
  · subst hp
    refine ⟨[], fun name h1 h2 h3 h4 => ?_⟩
    have hhead : ¬ (name.head? = some '/') := by
      intro h
      cases name with
      | nil => simp at h
      | cons c cs =>
        simp at h
        exact h1 (by simp [h])
    simp [Filepath.Join, h2, Strings.Join, Filepath.Clean, hhead,
      Strings.Split_not_mem name '/' h1, Filepath.cleanStep_name _ _ name h2 h3 h4]
  · obtain ⟨pre, hpre⟩ :=
      Strings.Join_concat
        ((Strings.Split p '/').foldl (Filepath.cleanStep (p.head? = some '/')) []).reverse ['/']
    by_cases hroot : p.head? = some '/'
    · refine ⟨'/' :: pre, fun name h1 h2 h3 h4 => ?_⟩
      have hhead : (p ++ '/' :: name).head? = some '/' := by
        cases p with
        | nil => exact absurd rfl hp
        | cons c cs => simpa using hroot
      have hj : Strings.Join [p, name] ['/'] = p ++ '/' :: name := by
        simp [Strings.Join]
      rw [Filepath.Join, if_neg hp, hj, Filepath.Clean]
      simp only [hhead, Strings.Split_append, List.foldl_append,
        Strings.Split_not_mem name '/' h1, List.foldl_cons, List.foldl_nil,
        Filepath.cleanStep_name _ _ name h2 h3 h4, List.reverse_cons, decide_True, if_true]
      simp only [hroot, decide_True] at hpre
      rw [hpre name]
      rfl
    · refine ⟨pre, fun name h1 h2 h3 h4 => ?_⟩
      have hhead : ¬ ((p ++ '/' :: name).head? = some '/') := by
        cases p with
        | nil => exact absurd rfl hp
        | cons c cs => simpa using hroot
      have hj : Strings.Join [p, name] ['/'] = p ++ '/' :: name := by
        simp [Strings.Join]
      rw [Filepath.Join, if_neg hp, hj, Filepath.Clean]
      simp only [hhead, Strings.Split_append, List.foldl_append,
        Strings.Split_not_mem name '/' h1, List.foldl_cons, List.foldl_nil,
        Filepath.cleanStep_name _ _ name h2 h3 h4, List.reverse_cons, decide_False]
      simp only [hroot, decide_False] at hpre
      rw [hpre name]
      simp

theorem getDevicesAllowPath_ne_deny (d : DeviceCgroup) :
    d.getDevicesAllowPath ≠ d.getDevicesDenyPath := by
  obtain ⟨pre, h⟩ := Filepath.Join_name d.path
  rw [DeviceCgroup.getDevicesAllowPath, DeviceCgroup.getDevicesDenyPath,
    h _ (by decide) (by decide) (by decide) (by decide),
    h _ (by decide) (by decide) (by decide) (by decide)]
  intro e
  exact absurd (List.append_cancel_left e) (by decide)

theorem getDevicesAllowPath_ne_list (d : DeviceCgroup) :
    d.getDevicesAllowPath ≠ d.getDevicesListPath := by
  obtain ⟨pre, h⟩ := Filepath.Join_name d.path
  rw [DeviceCgroup.getDevicesAllowPath, DeviceCgroup.getDevicesListPath,
    h _ (by decide) (by decide) (by decide) (by decide),
    h _ (by decide) (by decide) (by decide) (by decide)]
  intro e
  exact absurd (List.append_cancel_left e) (by decide)

theorem getDevicesDenyPath_ne_list (d : DeviceCgroup) :
    d.getDevicesDenyPath ≠ d.getDevicesListPath := by
  obtain ⟨pre, h⟩ := Filepath.Join_name d.path
  rw [DeviceCgroup.getDevicesDenyPath, DeviceCgroup.getDevicesListPath,
    h _ (by decide) (by decide) (by decide) (by decide),
    h _ (by decide) (by decide) (by decide) (by decide)]
  intro e
  exact absurd (List.append_cancel_left e) (by decide)

/-! ## List -/

theorem List_of_read_ok (d : DeviceCgroup) (fs : FS) (content : GoString)
    (hread : Ioutil.ReadFile fs d.getDevicesListPath = .ok content) :
    d.List fs =
      if content.length = 0 then ([], none)
      else (Strings.Split (Strings.TrimSpace content) '\n', none) := by
  simp only [DeviceCgroup.List, hread]

theorem trimOneNewline_eq_TrimSpace (content : GoString) (hne : content ≠ [])
    (hl : Strings.hasLeadingSpace content = false)
    (ht : Strings.hasTrailingSpace (trimOneNewline content) = false) :
    Strings.TrimSpace content = trimOneNewline content := by
  rw [Strings.TrimSpace, Strings.TrimLeftSpace_eq_self content hl]
  unfold trimOneNewline at ht ⊢
  by_cases hlast : content.getLast? = some '\n'
  · rw [if_pos hlast] at ht ⊢
    obtain ⟨t, ht2⟩ : ∃ t, content = t ++ ['\n'] := by
      rcases List.eq_nil_or_concat content with h | ⟨t, c, h⟩
      · exact absurd h hne
      · refine ⟨t, ?_⟩
        rw [h] at hlast
        simp at hlast
        simp [h, hlast]
    subst ht2
    simp only [List.dropLast_concat] at ht ⊢
    rw [Strings.TrimRightSpace_append_space _ _ Strings.isSpace_newline,
      Strings.TrimRightSpace_eq_self _ ht]
  · rw [if_neg hlast] at ht ⊢
    exact Strings.TrimRightSpace_eq_self _ ht

/-- C3, as amended.  When `devices.list` can be read, `List` returns no error, and when the
content has no byte at all it returns the empty sequence. -/
theorem List_empty_content (d : DeviceCgroup) (fs : FS) (content : GoString)
    (hread : Ioutil.ReadFile fs d.getDevicesListPath = .ok content) :
    (d.List fs).2 = none ∧ (content.length = 0 → d.List fs = ([], none)) := by
  rw [List_of_read_ok d fs content hread]
  refine ⟨?_, ?_⟩
  · split <;> rfl
  · intro h
    simp [h]

/-- C3, witness: the empty `devices.list`. -/
theorem List_empty_content_witness :
    (cgroup.List (listFS [])).2 = none ∧
      ((([] : GoString)).length = 0 → cgroup.List (listFS []) = ([], none)) :=
  List_empty_content cgroup (listFS []) [] (by decide)

/-- C3, counterexample.  A `devices.list` that holds a single newline is empty after
trimming, yet `List` returns one entry, the empty string, instead of no entry. -/
theorem List_blank_content_counterexample :
    Ioutil.ReadFile (listFS ['\n']) cgroup.getDevicesListPath = .ok ['\n'] ∧
      Strings.TrimRightSpace ['\n'] = [] ∧
      cgroup.List (listFS ['\n']) = ([[]], none) ∧
      cgroup.List (listFS ['\n']) ≠ ([], none) := by
  decide

/-- C4, as amended.  When `devices.list` can be read and is not empty after trimming,
`List` returns no error and the lines of the content with all leading and all trailing
white space of the content removed: the entries hold no newline, joined by newlines they
give back the trimmed content byte for byte (so they are in file order, empty lines
included, and nothing inside the trimmed content is added or removed), and they are the
only such sequence.  When the content starts with no white space and has none left at its
end once a single final newline is removed, this is the content without that newline,
split at every newline. -/
theorem List_nonempty_content (d : DeviceCgroup) (fs : FS) (content : GoString)
    (hread : Ioutil.ReadFile fs d.getDevicesListPath = .ok content)
    (hne : Strings.TrimSpace content ≠ []) :
    ∃ entries, d.List fs = (entries, none) ∧
      entries = Strings.Split (Strings.TrimSpace content) '\n' ∧
      Strings.Join entries ['\n'] = Strings.TrimSpace content ∧
      (∀ e ∈ entries, '\n' ∉ e) ∧
      (∀ other : Strings, other ≠ [] → (∀ e ∈ other, '\n' ∉ e) →
        Strings.Join other ['\n'] = Strings.TrimSpace content → other = entries) ∧
      (Strings.hasLeadingSpace content = false →
        Strings.hasTrailingSpace (trimOneNewline content) = false →
        entries = listSpec content) := by
  have hc : content ≠ [] := by
    intro h
    apply hne
    rw [h]
    rfl
  refine ⟨Strings.Split (Strings.TrimSpace content) '\n', ?_, rfl, ?_, ?_, ?_, ?_⟩
  · rw [List_of_read_ok d fs content hread, if_neg (by simpa using hc)]
  · exact Strings.Join_Split _ _
  · exact Strings.Split_not_mem_piece _ _
  · intro other ho hn hj
    rw [← hj, Strings.Split_Join other '\n' ho hn]
  · intro hl ht
    rw [listSpec, trimOneNewline_eq_TrimSpace content hc hl ht]

/-- C4, witness: a `devices.list` holding two lines and no final newline. -/
theorem List_nonempty_content_witness :
    ∃ entries, cgroup.List (listFS "c 1:1 rwm\nb *:* m".toList) = (entries, none) ∧
      entries = Strings.Split (Strings.TrimSpace "c 1:1 rwm\nb *:* m".toList) '\n' ∧
      Strings.Join entries ['\n'] = Strings.TrimSpace "c 1:1 rwm\nb *:* m".toList ∧
      (∀ e ∈ entries, '\n' ∉ e) ∧
      (∀ other : Strings, other ≠ [] → (∀ e ∈ other, '\n' ∉ e) →
        Strings.Join other ['\n'] = Strings.TrimSpace "c 1:1 rwm\nb *:* m".toList →
        other = entries) ∧
      (Strings.hasLeadingSpace "c 1:1 rwm\nb *:* m".toList = false →
        Strings.hasTrailingSpace (trimOneNewline "c 1:1 rwm\nb *:* m".toList) = false →
        entries = listSpec "c 1:1 rwm\nb *:* m".toList) :=
  List_nonempty_content cgroup (listFS "c 1:1 rwm\nb *:* m".toList) "c 1:1 rwm\nb *:* m".toList
    (by decide) (by decide)

/-- C4, counterexample.  The content `" c 1:1 rwm\nb *:* m "` is not empty after trimming;
removing a single trailing newline and splitting keeps the leading space of the first line
and the trailing space of the last, `List` returns both lines without them. -/
theorem List_verbatim_counterexample :
    Ioutil.ReadFile (listFS " c 1:1 rwm\nb *:* m ".toList) cgroup.getDevicesListPath =
        .ok " c 1:1 rwm\nb *:* m ".toList ∧
      Strings.TrimSpace " c 1:1 rwm\nb *:* m ".toList ≠ [] ∧
      listSpec " c 1:1 rwm\nb *:* m ".toList = [" c 1:1 rwm".toList, "b *:* m ".toList] ∧
      cgroup.List (listFS " c 1:1 rwm\nb *:* m ".toList) =
        (["c 1:1 rwm".toList, "b *:* m".toList], none) ∧
      cgroup.List (listFS " c 1:1 rwm\nb *:* m ".toList) ≠
        (listSpec " c 1:1 rwm\nb *:* m ".toList, none) := by
  decide

/-! ## Load -/

theorem containsFile_iff (files : FileInfos) (name : GoString) :
    containsFile files name = true ↔ ∃ fileInfo ∈ files, fileInfo.Name = name := by
  induction files with
  | nil => simp [containsFile]
  | cons fileInfo rest ih =>
    rw [containsFile]
    by_cases h : fileInfo.Name = name
    · simp [h]
    · simp [h, ih]

/-- C2.  `Load` is decided by the listing of `path` alone.  A listing error is returned as
it is; a listing that lacks one of the names `devices.allow`, `devices.deny`,
`devices.list` gives the error whose message is `not a device cgroup: ` followed by
`path`; a listing with the three names gives a handle bound to `path`.  So `Load` succeeds
exactly when the listing succeeds and holds the three names. -/
theorem Load_decided_by_listing (fs : FS) (path : GoString) :
    (∀ err, Ioutil.ReadDir fs path = .error err → Load fs path = .error err) ∧
    (∀ files, Ioutil.ReadDir fs path = .ok files →
      ¬ ((∃ fi ∈ files, fi.Name = "devices.allow".toList) ∧
          (∃ fi ∈ files, fi.Name = "devices.deny".toList) ∧
          (∃ fi ∈ files, fi.Name = "devices.list".toList)) →
      Load fs path = .error ⟨"not a device cgroup: ".toList ++ path⟩) ∧
    (∀ files, Ioutil.ReadDir fs path = .ok files →
      (∃ fi ∈ files, fi.Name = "devices.allow".toList) →
      (∃ fi ∈ files, fi.Name = "devices.deny".toList) →
      (∃ fi ∈ files, fi.Name = "devices.list".toList) →
      ∃ d, Load fs path = .ok d ∧ d.path = path) ∧
    ((∃ d, Load fs path = .ok d) ↔
      ∃ files, Ioutil.ReadDir fs path = .ok files ∧
        (∃ fi ∈ files, fi.Name = "devices.allow".toList) ∧
        (∃ fi ∈ files, fi.Name = "devices.deny".toList) ∧
        (∃ fi ∈ files, fi.Name = "devices.list".toList)) ∧
    (∀ other : FS, Ioutil.ReadDir other path = Ioutil.ReadDir fs path →
      Load other path = Load fs path) := by
  have hbad : ∀ files, Ioutil.ReadDir fs path = .ok files →
      ¬ ((∃ fi ∈ files, fi.Name = "devices.allow".toList) ∧
          (∃ fi ∈ files, fi.Name = "devices.deny".toList) ∧
          (∃ fi ∈ files, fi.Name = "devices.list".toList)) →
      Load fs path = .error ⟨"not a device cgroup: ".toList ++ path⟩ := by
    intro files hfiles hmiss
    simp only [← containsFile_iff] at hmiss
    have hcond : (!containsFile files "devices.allow".toList ||
        !containsFile files "devices.deny".toList ||
        !containsFile files "devices.list".toList) = true := by
      by_contra hc
      apply hmiss
      simp only [Bool.or_eq_true, Bool.not_eq_true', not_or, Bool.not_eq_false] at hc
      exact ⟨hc.1.1, hc.1.2, hc.2⟩
    simp only [Load, validateDeviceCgroup, hfiles, hcond, if_true]
    rfl
  have hgood : ∀ files, Ioutil.ReadDir fs path = .ok files →
      (∃ fi ∈ files, fi.Name = "devices.allow".toList) →
      (∃ fi ∈ files, fi.Name = "devices.deny".toList) →
      (∃ fi ∈ files, fi.Name = "devices.list".toList) →
      ∃ d, Load fs path = .ok d ∧ d.path = path := by
    intro files hfiles ha hd hl
    rw [← containsFile_iff] at ha hd hl
    refine ⟨{ path := path, fprinter := Fmt.Fprint, dirReader := Ioutil.ReadDir }, ?_, rfl⟩
    simp only [Load, validateDeviceCgroup, hfiles, ha, hd, hl, Bool.not_true, Bool.or_self,
      Bool.false_eq_true, if_false]
  refine ⟨?_, hbad, hgood, ?_, ?_⟩
  · intro err herr
    simp [Load, validateDeviceCgroup, herr]
  · constructor
    · rintro ⟨d, hd⟩
      cases hfiles : Ioutil.ReadDir fs path with
      | error err =>
        simp [Load, validateDeviceCgroup, hfiles] at hd
      | ok files =>
        refine ⟨files, rfl, ?_⟩
        by_contra hmiss
        rw [hbad files hfiles hmiss] at hd
        cases hd
    · rintro ⟨files, hfiles, ha, hd, hl⟩
      obtain ⟨d, h, _⟩ := hgood files hfiles ha hd hl
      exact ⟨d, h⟩
  · intro other h
    simp only [Load, validateDeviceCgroup, h]

/-- C2, witness: `/cg` holds the three control files, `/tmp` cannot be listed. -/
theorem Load_decided_by_listing_witness :
    (∃ d, Load (listFS []) "/cg".toList = .ok d ∧ d.path = "/cg".toList) ∧
      Load (listFS []) "/tmp".toList = .error ⟨"open /tmp: no such file or directory".toList⟩ :=
  ⟨(Load_decided_by_listing (listFS []) "/cg".toList).2.2.1 controlFiles (by decide)
      (by decide) (by decide) (by decide),
    (Load_decided_by_listing (listFS []) "/tmp".toList).1 _ (by decide)⟩

/-! ## HasChildren -/

theorem hasChildrenLoop_eq (dirs : FileInfos) :
    hasChildrenLoop dirs = (dirs.any (fun dir => dir.IsDir), none) := by
  induction dirs with
  | nil => rfl
  | cons dir rest ih =>
    rw [hasChildrenLoop]
    cases h : dir.IsDir <;> simp [h, ih]

/-- C5.  When the listing the handle reads succeeds, `HasChildren` returns no error, and
`true` exactly when an entry of the listing is a directory: the answer is the same for
every order of the entries, the entries that are not directories do not count, and a
listing without directory, the empty one included, gives `false`.  When the listing fails,
`HasChildren` returns `false` and the error of the listing. -/
theorem HasChildren_iff_directory_entry (d : DeviceCgroup) (fs : FS) :
    (∀ dirs, d.dirReader fs d.path = .ok dirs →
      (d.HasChildren fs).2 = none ∧
      (d.HasChildren fs = (true, none) ↔ ∃ dir ∈ dirs, dir.IsDir = true) ∧
      (d.HasChildren fs = (false, none) ↔ ∀ dir ∈ dirs, dir.IsDir = false) ∧
      (∀ (other : FS) (dirs2 : FileInfos), d.dirReader other d.path = .ok dirs2 →
        (dirs2.Perm dirs ∨ dirs2.filter (fun dir => dir.IsDir) = dirs.filter (fun dir => dir.IsDir)) →
        d.HasChildren other = d.HasChildren fs)) ∧
    (d.dirReader fs d.path = .ok [] → d.HasChildren fs = (false, none)) ∧
    (∀ err, d.dirReader fs d.path = .error err → d.HasChildren fs = (false, some err)) := by
  have hval : ∀ (x : FS) (dirs : FileInfos), d.dirReader x d.path = .ok dirs →
      d.HasChildren x = (dirs.any (fun dir => dir.IsDir), none) := by
    intro x dirs h
    simp only [DeviceCgroup.HasChildren, h, hasChildrenLoop_eq]
  refine ⟨?_, ?_, ?_⟩
  · intro dirs hdirs
    rw [hval fs dirs hdirs]
    refine ⟨rfl, ?_, ?_, ?_⟩
    · simp
    · simp
    · intro other dirs2 h2 hrel
      rw [hval other dirs2 h2]
      have : dirs2.any (fun dir => dir.IsDir) = dirs.any (fun dir => dir.IsDir) := by
        rcases hrel with hperm | hfilter
        · rw [Bool.eq_iff_iff]
          simp only [List.any_eq_true]
          constructor
          · rintro ⟨x, hx, hxd⟩
            exact ⟨x, hperm.mem_iff.mp hx, hxd⟩
          · rintro ⟨x, hx, hxd⟩
            exact ⟨x, hperm.mem_iff.mpr hx, hxd⟩
        · rw [Bool.eq_iff_iff]
          simp only [List.any_eq_true]
          constructor
          · rintro ⟨x, hx, hxd⟩
            have : x ∈ dirs2.filter (fun dir => dir.IsDir) := List.mem_filter.mpr ⟨hx, hxd⟩
            rw [hfilter] at this
            exact ⟨x, (List.mem_filter.mp this).1, hxd⟩
          · rintro ⟨x, hx, hxd⟩
            have : x ∈ dirs.filter (fun dir => dir.IsDir) := List.mem_filter.mpr ⟨hx, hxd⟩
            rw [← hfilter] at this
            exact ⟨x, (List.mem_filter.mp this).1, hxd⟩
      rw [this]
  · intro h
    rw [hval fs [] h]
    rfl
  · intro err herr
    simp only [DeviceCgroup.HasChildren, herr]

/-- C5, witness: the directory `nested` next to the three control files. -/
theorem HasChildren_iff_directory_entry_witness :
    cgroup.HasChildren (cgroupFS none none none [⟨"nested".toList, true⟩]) = (true, none) :=
  ((HasChildren_iff_directory_entry cgroup
    (cgroupFS none none none [⟨"nested".toList, true⟩])).1
      (controlFiles ++ [⟨"nested".toList, true⟩]) (by decide)).2.1.mpr
    ⟨⟨"nested".toList, true⟩, by decide, rfl⟩

/-! ## Allow and Deny -/

theorem File.acceptLines_content (w : File) (entries : Strings) :
    (w.acceptLines entries).content = w.content ++ writtenLines entries := by
  induction entries generalizing w with
  | nil => simp [File.acceptLines, writtenLines]
  | cons e rest ih => simp [File.acceptLines, writtenLines, ih, File.accept]

theorem File.acceptLines_requests (w : File) (entries : Strings) :
    (w.acceptLines entries).requests = w.requests ++ entries.map (fun e => e ++ ['\n']) := by
  induction entries generalizing w with
  | nil => simp [File.acceptLines]
  | cons e rest ih => simp [File.acceptLines, ih, File.accept]

theorem writeEntryTo_of_succeed (d : DeviceCgroup) (w : File) (entries : Strings)
    (h : AllWritesSucceed d.fprinter w entries) :
    d.writeEntryTo w entries = (w.acceptLines entries, none) := by
  induction entries generalizing w with
  | nil => rfl
  | cons e rest ih =>
    obtain ⟨⟨h1, h2⟩, h3⟩ := h
    rw [DeviceCgroup.writeEntryTo]
    rcases hpr : d.fprinter w (e ++ ['\n']) with ⟨w2, n, err⟩
    rw [hpr] at h1 h2
    simp only at h1 h2
    subst h1 h2
    simp only
    exact ih _ h3

theorem writeEntryTo_of_fail (d : DeviceCgroup) (w : File) (before : Strings) (e : GoString)
    (after : Strings) (x : GoError) (h : AllWritesSucceed d.fprinter w before)
    (hfail : (d.fprinter (w.acceptLines before) (e ++ ['\n'])).2.2 = some x) :
    d.writeEntryTo w (before ++ e :: after) =
      ((d.fprinter (w.acceptLines before) (e ++ ['\n'])).1, some x) := by
  induction before generalizing w with
  | nil =>
    simp only [File.acceptLines] at hfail ⊢
    rw [List.nil_append, DeviceCgroup.writeEntryTo]
    rcases hpr : d.fprinter w (e ++ ['\n']) with ⟨w2, n, err⟩
    rw [hpr] at hfail
    simp only at hfail
    subst hfail
    rfl
  | cons b rest ih =>
    obtain ⟨⟨h1, h2⟩, h3⟩ := h
    rw [List.cons_append, DeviceCgroup.writeEntryTo]
    rcases hpr : d.fprinter w (b ++ ['\n']) with ⟨w2, n, err⟩
    rw [hpr] at h1 h2
    simp only at h1 h2
    subst h1 h2
    simp only
    exact ih _ h3 hfail

theorem OpenFile_ok_files (fs : FS) (name : GoString) (f : File)
    (h : Os.OpenFile fs name = .ok f) : fs.files name = some f := by
  unfold Os.OpenFile at h
  cases hf : fs.files name with
  | none => simp [hf] at h
  | some g =>
    rw [hf] at h
    cases ho : g.openErr with
    | some err => simp [ho] at h
    | none =>
      simp [ho] at h
      rw [h]

theorem FS.received_same (fs : FS) (path : GoString) (f : File)
    (h : fs.files path = some f) : fs.received path f = [] := by
  simp [FS.received, h]

theorem FS.store_same (fs : FS) (path : GoString) (f : File) (h : fs.files path = some f) :
    fs.store path f = fs := by
  cases fs with
  | mk dirs files onWrite =>
    simp only [FS.store, FS.mk.injEq, true_and, and_true]
    funext p
    by_cases hp : p = path
    · subst hp
      simp only [if_true]
      exact h.symm
    · simp only [if_neg hp, FS.reaction, FS.received_same _ _ f h, List.foldl_nil]

/-- C1.  When `devices.allow` can be opened and every write succeeds, `Allow` returns no
error and the file afterwards holds the content it had before the call followed by
`e1 + "\n" + ... + en + "\n"`: the lines of the entries, in the order given, are the write
requests the file received.  On an empty file the content is that concatenation, and for
no entry nothing is written.  The same holds for `Deny` and `devices.deny`. -/
theorem Allow_Deny_append_lines (d : DeviceCgroup) (fs : FS) (entries : Strings) :
    (∀ f, Os.OpenFile fs d.getDevicesAllowPath = .ok f →
      AllWritesSucceed d.fprinter f entries →
      fs.files d.getDevicesAllowPath = some f ∧
      (d.Allow fs entries).2 = none ∧
      ∃ g, (d.Allow fs entries).1.files d.getDevicesAllowPath = some g ∧
        g.content = f.content ++ writtenLines entries ∧
        g.requests = f.requests ++ entries.map (fun e => e ++ ['\n']) ∧
        (f.content = [] → g.content = writtenLines entries) ∧
        (entries = [] → g = f)) ∧
    (∀ f, Os.OpenFile fs d.getDevicesDenyPath = .ok f →
      AllWritesSucceed d.fprinter f entries →
      fs.files d.getDevicesDenyPath = some f ∧
      (d.Deny fs entries).2 = none ∧
      ∃ g, (d.Deny fs entries).1.files d.getDevicesDenyPath = some g ∧
        g.content = f.content ++ writtenLines entries ∧
        g.requests = f.requests ++ entries.map (fun e => e ++ ['\n']) ∧
        (f.content = [] → g.content = writtenLines entries) ∧
        (entries = [] → g = f)) := by
  constructor
  · intro f hopen hw
    refine ⟨OpenFile_ok_files _ _ _ hopen, ?_, f.acceptLines entries, ?_,
      File.acceptLines_content _ _, File.acceptLines_requests _ _, ?_, ?_⟩
    · simp only [DeviceCgroup.Allow, hopen, writeEntryTo_of_succeed d f entries hw]
    · simp [DeviceCgroup.Allow, hopen, writeEntryTo_of_succeed d f entries hw, FS.store]
    · intro h
      rw [File.acceptLines_content, h, List.nil_append]
    · intro h
      rw [h]
      rfl
  · intro f hopen hw
    refine ⟨OpenFile_ok_files _ _ _ hopen, ?_, f.acceptLines entries, ?_,
      File.acceptLines_content _ _, File.acceptLines_requests _ _, ?_, ?_⟩
    · simp only [DeviceCgroup.Deny, hopen, writeEntryTo_of_succeed d f entries hw]
    · simp [DeviceCgroup.Deny, hopen, writeEntryTo_of_succeed d f entries hw, FS.store]
    · intro h
      rw [File.acceptLines_content, h, List.nil_append]
    · intro h
      rw [h]
      rfl

/-- C1, witness: three entries allowed on an empty `devices.allow`. -/
theorem Allow_Deny_append_lines_witness :
    (cgroup.Allow (allowFS (some (plainFile [])))
        ["c *:* m".toList, "b *:* m".toList, "c 10:229 rwm".toList]).2 = none ∧
      ∃ g, (cgroup.Allow (allowFS (some (plainFile [])))
          ["c *:* m".toList, "b *:* m".toList, "c 10:229 rwm".toList]).1.files
            cgroup.getDevicesAllowPath = some g ∧
        g.content = "c *:* m\nb *:* m\nc 10:229 rwm\n".toList := by
  obtain ⟨_, herr, g, hg, hc, _⟩ :=
    (Allow_Deny_append_lines cgroup (allowFS (some (plainFile [])))
      ["c *:* m".toList, "b *:* m".toList, "c 10:229 rwm".toList]).1 (plainFile [])
      (by decide) (by simp only [AllWritesSucceed, WriteSucceeds]; decide)
  exact ⟨herr, g, hg, hc⟩

/-- C6.  When the writes of `e1 .. e(k-1)` succeed and the write of `ek` fails with `x`,
`Allow` returns `x`.  The failing write was issued on the file that holds the content from
before the call followed by the lines of `e1 .. e(k-1)`, and the file system afterwards
holds that file exactly as the failing write left it: nothing is rolled back, and nothing
depends on `e(k+1) .. en`, for which no write is issued.  With `fmt.Fprint` as the writer
the file received the lines of `e1 .. ek` as its write requests and no other.  The same
holds for `Deny` and `devices.deny`. -/
theorem Allow_Deny_stop_at_first_failure (d : DeviceCgroup) (fs : FS) (before : Strings)
    (e : GoString) (after : Strings) (x : GoError) :
    (∀ f, Os.OpenFile fs d.getDevicesAllowPath = .ok f →
      AllWritesSucceed d.fprinter f before →
      (d.fprinter (f.acceptLines before) (e ++ ['\n'])).2.2 = some x →
      d.Allow fs (before ++ e :: after) =
        (fs.store d.getDevicesAllowPath (d.fprinter (f.acceptLines before) (e ++ ['\n'])).1,
          some x) ∧
      (f.acceptLines before).content = f.content ++ writtenLines before ∧
      d.Allow fs (before ++ e :: after) = d.Allow fs (before ++ [e]) ∧
      (d.fprinter = Fmt.Fprint →
        ∃ g, (d.Allow fs (before ++ e :: after)).1.files d.getDevicesAllowPath = some g ∧
          (∃ n, g.content = f.content ++ writtenLines before ++ (e ++ ['\n']).take n) ∧
          g.requests = f.requests ++ (before ++ [e]).map (fun l => l ++ ['\n']))) ∧
    (∀ f, Os.OpenFile fs d.getDevicesDenyPath = .ok f →
      AllWritesSucceed d.fprinter f before →
      (d.fprinter (f.acceptLines before) (e ++ ['\n'])).2.2 = some x →
      d.Deny fs (before ++ e :: after) =
        (fs.store d.getDevicesDenyPath (d.fprinter (f.acceptLines before) (e ++ ['\n'])).1,
          some x) ∧
      (f.acceptLines before).content = f.content ++ writtenLines before ∧
      d.Deny fs (before ++ e :: after) = d.Deny fs (before ++ [e]) ∧
      (d.fprinter = Fmt.Fprint →
        ∃ g, (d.Deny fs (before ++ e :: after)).1.files d.getDevicesDenyPath = some g ∧
          (∃ n, g.content = f.content ++ writtenLines before ++ (e ++ ['\n']).take n) ∧
          g.requests = f.requests ++ (before ++ [e]).map (fun l => l ++ ['\n']))) := by
  have hreal : ∀ f : File, d.fprinter = Fmt.Fprint →
      (d.fprinter (f.acceptLines before) (e ++ ['\n'])).2.2 = some x →
      (∃ n, (d.fprinter (f.acceptLines before) (e ++ ['\n'])).1.content =
        f.content ++ writtenLines before ++ (e ++ ['\n']).take n) ∧
      (d.fprinter (f.acceptLines before) (e ++ ['\n'])).1.requests =
        f.requests ++ (before ++ [e]).map (fun l => l ++ ['\n']) := by
    intro f hpr hfail
    rw [hpr] at hfail ⊢
    simp only [Fmt.Fprint, File.Write] at hfail ⊢
    split at hfail
    · simp at hfail
    · rename_i n err hlook
      refine ⟨⟨n, ?_⟩, ?_⟩
      · simp only [File.acceptLines_content]
      · simp only [File.acceptLines_requests, List.map_append, List.map_cons, List.map_nil,
          List.append_assoc]
  constructor
  · intro f hopen hw hfail
    have h1 := writeEntryTo_of_fail d f before e after x hw hfail
    have h2 := writeEntryTo_of_fail d f before e [] x hw hfail
    refine ⟨?_, File.acceptLines_content _ _, ?_, ?_⟩
    · simp only [DeviceCgroup.Allow, hopen, h1]
    · simp only [DeviceCgroup.Allow, hopen, h1, h2]
    · intro hpr
      refine ⟨(d.fprinter (f.acceptLines before) (e ++ ['\n'])).1, ?_, hreal f hpr hfail⟩
      simp [DeviceCgroup.Allow, hopen, h1, FS.store]
  · intro f hopen hw hfail
    have h1 := writeEntryTo_of_fail d f before e after x hw hfail
    have h2 := writeEntryTo_of_fail d f before e [] x hw hfail
    refine ⟨?_, File.acceptLines_content _ _, ?_, ?_⟩
    · simp only [DeviceCgroup.Deny, hopen, h1]
    · simp only [DeviceCgroup.Deny, hopen, h1, h2]
    · intro hpr
      refine ⟨(d.fprinter (f.acceptLines before) (e ++ ['\n'])).1, ?_, hreal f hpr hfail⟩
      simp [DeviceCgroup.Deny, hopen, h1, FS.store]

/-- C6, witness: the second of three writes is rejected after three of its bytes. -/
theorem Allow_Deny_stop_at_first_failure_witness :
    (cgroup.Allow (allowFS (some (faultyFile "a\n".toList 1 3 ⟨"invalid argument".toList⟩)))
        ["c 1:3 rwm".toList, "bogus".toList, "c 1:8 rwm".toList]).2 =
      some ⟨"invalid argument".toList⟩ ∧
    ((cgroup.Allow (allowFS (some (faultyFile "a\n".toList 1 3 ⟨"invalid argument".toList⟩)))
        ["c 1:3 rwm".toList, "bogus".toList, "c 1:8 rwm".toList]).1.files
          cgroup.getDevicesAllowPath).map (fun g => (g.content, g.requests)) =
      some ("a\nc 1:3 rwm\nbog".toList, ["c 1:3 rwm\n".toList, "bogus\n".toList]) := by
  have h := ((Allow_Deny_stop_at_first_failure cgroup
    (allowFS (some (faultyFile "a\n".toList 1 3 ⟨"invalid argument".toList⟩)))
    ["c 1:3 rwm".toList] "bogus".toList ["c 1:8 rwm".toList] ⟨"invalid argument".toList⟩).1
    (faultyFile "a\n".toList 1 3 ⟨"invalid argument".toList⟩) (by decide)
    (by simp only [AllWritesSucceed, WriteSucceeds]; decide) (by decide)).1
  constructor
  · exact congrArg Prod.snd h
  · decide

/-- C7.  When `devices.allow` cannot be opened, `Allow` returns the error of the open for
every sequence of entries, the empty one included, and the file system is the one from
before the call: nothing is written.  When it can be opened and there is no entry, `Allow`
returns no error and the file system is again the one from before the call.  The same
holds for `Deny` and `devices.deny`. -/
theorem Allow_Deny_open_error_and_no_entry (d : DeviceCgroup) (fs : FS) :
    (∀ entries err, Os.OpenFile fs d.getDevicesAllowPath = .error err →
      d.Allow fs entries = (fs, some err)) ∧
    (∀ f, Os.OpenFile fs d.getDevicesAllowPath = .ok f → d.Allow fs [] = (fs, none)) ∧
    (∀ entries err, Os.OpenFile fs d.getDevicesDenyPath = .error err →
      d.Deny fs entries = (fs, some err)) ∧
    (∀ f, Os.OpenFile fs d.getDevicesDenyPath = .ok f → d.Deny fs [] = (fs, none)) := by
  refine ⟨?_, ?_, ?_, ?_⟩
  · intro entries err h
    simp only [DeviceCgroup.Allow, h]
  · intro f h
    simp only [DeviceCgroup.Allow, h, DeviceCgroup.writeEntryTo,
      FS.store_same fs _ f (OpenFile_ok_files _ _ _ h)]
  · intro entries err h
    simp only [DeviceCgroup.Deny, h]
  · intro f h
    simp only [DeviceCgroup.Deny, h, DeviceCgroup.writeEntryTo,
      FS.store_same fs _ f (OpenFile_ok_files _ _ _ h)]

/-- C7, witness: a missing `devices.allow`, and `Deny` with no entry. -/
theorem Allow_Deny_open_error_and_no_entry_witness :
    cgroup.Allow (allowFS none) ["c *:* m".toList] =
        (allowFS none, some ⟨"open /cg/devices.allow: no such file or directory".toList⟩) ∧
      cgroup.Deny (denyFS (some (plainFile "a\n".toList))) [] =
        (denyFS (some (plainFile "a\n".toList)), none) :=
  ⟨(Allow_Deny_open_error_and_no_entry cgroup (allowFS none)).1 _ _ (by decide),
    (Allow_Deny_open_error_and_no_entry cgroup (denyFS (some (plainFile "a\n".toList)))).2.2.2
      (plainFile "a\n".toList) (by decide)⟩

/-! ## What Allow, Deny and List touch and consult -/

theorem Allow_eq_appendEntriesTo (d : DeviceCgroup) (fs : FS) (entries : Strings) :
    d.Allow fs entries = appendEntriesTo d fs d.getDevicesAllowPath entries := by
  unfold DeviceCgroup.Allow appendEntriesTo
  cases Os.OpenFile fs d.getDevicesAllowPath <;> rfl

theorem Deny_eq_appendEntriesTo (d : DeviceCgroup) (fs : FS) (entries : Strings) :
    d.Deny fs entries = appendEntriesTo d fs d.getDevicesDenyPath entries := by
  unfold DeviceCgroup.Deny appendEntriesTo
  cases Os.OpenFile fs d.getDevicesDenyPath <;> rfl

theorem FS.reaction_of_inert (fs : FS) (path : GoString) (file : File)
    (h : fs.Inert path) : fs.reaction path file = fs.files := by
  unfold FS.reaction
  generalize fs.received path file = requests
  generalize fs.files = files
  induction requests generalizing files with
  | nil => rfl
  | cons request rest ih =>
    rw [List.foldl_cons, h request files]
    exact ih files

theorem appendEntriesTo_open_error (d : DeviceCgroup) (fs : FS) (target : GoString)
    (entries : Strings) (err : GoError) (h : Os.OpenFile fs target = .error err) :
    (appendEntriesTo d fs target entries).1 = fs := by
  simp only [appendEntriesTo, h]

theorem appendEntriesTo_files_reaction (d : DeviceCgroup) (fs : FS) (target : GoString)
    (entries : Strings) (f : File) (h : Os.OpenFile fs target = .ok f) (p : GoString)
    (hp : p ≠ target) :
    (appendEntriesTo d fs target entries).1.files p =
      fs.reaction target (d.writeEntryTo f entries).1 p := by
  simp only [appendEntriesTo, h, FS.store, if_neg hp]

theorem appendEntriesTo_files_other (d : DeviceCgroup) (fs : FS) (target : GoString)
    (entries : Strings) (hinert : fs.Inert target) (p : GoString) (hp : p ≠ target) :
    (appendEntriesTo d fs target entries).1.files p = fs.files p := by
  cases h : Os.OpenFile fs target with
  | error err => rw [appendEntriesTo_open_error d fs target entries err h]
  | ok f =>
    rw [appendEntriesTo_files_reaction d fs target entries f h p hp,
      FS.reaction_of_inert fs target _ hinert]

theorem appendEntriesTo_dirs (d : DeviceCgroup) (fs : FS) (target : GoString)
    (entries : Strings) : (appendEntriesTo d fs target entries).1.dirs = fs.dirs := by
  unfold appendEntriesTo
  cases Os.OpenFile fs target with
  | error err => rfl
  | ok file => rfl

theorem OpenFile_congr (fs other : FS) (name : GoString)
    (h : other.files name = fs.files name) : Os.OpenFile other name = Os.OpenFile fs name := by
  simp only [Os.OpenFile, h]

theorem appendEntriesTo_congr (d : DeviceCgroup) (fs other : FS) (target : GoString)
    (entries : Strings) (h : other.files target = fs.files target) :
    (appendEntriesTo d other target entries).2 = (appendEntriesTo d fs target entries).2 ∧
      (appendEntriesTo d other target entries).1.files target =
        (appendEntriesTo d fs target entries).1.files target := by
  unfold appendEntriesTo
  rw [OpenFile_congr fs other target h]
  cases Os.OpenFile fs target with
  | error err => exact ⟨rfl, h⟩
  | ok file => simp [FS.store]

/-- C8, as amended.  `Deny` is `Allow` with `devices.deny` in place of `devices.allow`: both
are the one contract `appendEntriesTo`, for their own target.  Each writes to its own
target only, whether it returns an error or not: the directory listings are as before, and
every file other than the target is as the file system's own reaction to the write
requests on the target leaves it (as before when the target could not be opened).  On a
file system that does not react to writes on the target, such as a directory of regular
files, `Allow` so leaves `devices.deny`, `devices.list` and every other file as they were,
and `Deny` leaves `devices.allow`, `devices.list` and every other file as they were.  The
handle is a value neither operation returns or changes. -/
theorem Allow_Deny_touch_own_target (d : DeviceCgroup) (fs : FS) (entries : Strings) :
    d.Allow fs entries = appendEntriesTo d fs d.getDevicesAllowPath entries ∧
    d.Deny fs entries = appendEntriesTo d fs d.getDevicesDenyPath entries ∧
    (d.Allow fs entries).1.dirs = fs.dirs ∧
    (∀ err, Os.OpenFile fs d.getDevicesAllowPath = .error err → (d.Allow fs entries).1 = fs) ∧
    (∀ f, Os.OpenFile fs d.getDevicesAllowPath = .ok f → ∀ p, p ≠ d.getDevicesAllowPath →
      (d.Allow fs entries).1.files p =
        fs.reaction d.getDevicesAllowPath (d.writeEntryTo f entries).1 p) ∧
    (fs.Inert d.getDevicesAllowPath →
      (∀ p, p ≠ d.getDevicesAllowPath → (d.Allow fs entries).1.files p = fs.files p) ∧
      (d.Allow fs entries).1.files d.getDevicesDenyPath = fs.files d.getDevicesDenyPath ∧
      (d.Allow fs entries).1.files d.getDevicesListPath = fs.files d.getDevicesListPath) ∧
    (d.Deny fs entries).1.dirs = fs.dirs ∧
    (∀ err, Os.OpenFile fs d.getDevicesDenyPath = .error err → (d.Deny fs entries).1 = fs) ∧
    (∀ f, Os.OpenFile fs d.getDevicesDenyPath = .ok f → ∀ p, p ≠ d.getDevicesDenyPath →
      (d.Deny fs entries).1.files p =
        fs.reaction d.getDevicesDenyPath (d.writeEntryTo f entries).1 p) ∧
    (fs.Inert d.getDevicesDenyPath →
      (∀ p, p ≠ d.getDevicesDenyPath → (d.Deny fs entries).1.files p = fs.files p) ∧
      (d.Deny fs entries).1.files d.getDevicesAllowPath = fs.files d.getDevicesAllowPath ∧
      (d.Deny fs entries).1.files d.getDevicesListPath = fs.files d.getDevicesListPath) := by
  have ha := Allow_eq_appendEntriesTo d fs entries
  have hd := Deny_eq_appendEntriesTo d fs entries
  refine ⟨ha, hd, ?_, ?_, ?_, ?_, ?_, ?_, ?_, ?_⟩
  · rw [ha]
    exact appendEntriesTo_dirs _ _ _ _
  · intro err h
    rw [ha]
    exact appendEntriesTo_open_error _ _ _ _ err h
  · intro f h p hp
    rw [ha]
    exact appendEntriesTo_files_reaction _ _ _ _ f h p hp
  · intro hinert
    rw [ha]
    exact ⟨fun p hp => appendEntriesTo_files_other _ _ _ _ hinert p hp,
      appendEntriesTo_files_other _ _ _ _ hinert _ (getDevicesAllowPath_ne_deny d).symm,
      appendEntriesTo_files_other _ _ _ _ hinert _ (getDevicesAllowPath_ne_list d).symm⟩
  · rw [hd]
    exact appendEntriesTo_dirs _ _ _ _
  · intro err h
    rw [hd]
    exact appendEntriesTo_open_error _ _ _ _ err h
  · intro f h p hp
    rw [hd]
    exact appendEntriesTo_files_reaction _ _ _ _ f h p hp
  · intro hinert
    rw [hd]
    exact ⟨fun p hp => appendEntriesTo_files_other _ _ _ _ hinert p hp,
      appendEntriesTo_files_other _ _ _ _ hinert _ (getDevicesAllowPath_ne_deny d),
      appendEntriesTo_files_other _ _ _ _ hinert _ (getDevicesDenyPath_ne_list d).symm⟩

/-- C8, witness: in a directory of regular files `Allow` leaves `devices.deny` alone and `Deny`
leaves `devices.list` alone. -/
theorem Allow_Deny_touch_own_target_witness :
    (cgroup.Allow (allowFS (some (plainFile []))) ["a".toList]).1.files
        cgroup.getDevicesDenyPath = some (plainFile "b 8:0 r\n".toList) ∧
      (cgroup.Deny (denyFS (some (plainFile []))) ["a".toList]).1.files
        cgroup.getDevicesListPath = some (plainFile "c 1:5 rwm\n".toList) :=
  ⟨((Allow_Deny_touch_own_target cgroup (allowFS (some (plainFile []))) ["a".toList]).2.2.2.2.2.1
      (fun _ _ => rfl)).2.1,
    ((Allow_Deny_touch_own_target cgroup (denyFS (some (plainFile []))) ["a".toList]).2.2.2.2.2.2.2.2.2
      (fun _ _ => rfl)).2.2⟩

/-- C8, counterexample.  On the cgroup `/cg` under the devices controller, with no device
allowed, `Allow` of the rule `a` returns no error and `devices.list`, empty before the
call, reports `a *:* rwm` after it; and with every device allowed, `Deny` of the rule `a`
returns no error and leaves `devices.list` empty. -/
theorem Allow_Deny_change_kernel_list_counterexample :
    ((cgroup.Allow (kernelFS []) ["a".toList]).2 = none ∧
      cgroup.List (kernelFS []) = ([], none) ∧
      cgroup.List (cgroup.Allow (kernelFS []) ["a".toList]).1 = (["a *:* rwm".toList], none) ∧
      (cgroup.Allow (kernelFS []) ["a".toList]).1.files cgroup.getDevicesListPath ≠
        (kernelFS []).files cgroup.getDevicesListPath) ∧
    ((cgroup.Deny (kernelFS "a *:* rwm\n".toList) ["a".toList]).2 = none ∧
      cgroup.List (kernelFS "a *:* rwm\n".toList) = (["a *:* rwm".toList], none) ∧
      cgroup.List (cgroup.Deny (kernelFS "a *:* rwm\n".toList) ["a".toList]).1 = ([], none) ∧
      (cgroup.Deny (kernelFS "a *:* rwm\n".toList) ["a".toList]).1.files
          cgroup.getDevicesListPath ≠
        (kernelFS "a *:* rwm\n".toList).files cgroup.getDevicesListPath) := by
  decide

theorem Load_ok_handle (fs : FS) (path : GoString) (d : DeviceCgroup)
    (h : Load fs path = .ok d) :
    d = { path := path, fprinter := Fmt.Fprint, dirReader := Ioutil.ReadDir } := by
  unfold Load at h
  split at h
  · cases h
  · cases h
    rfl

theorem ReadFile_congr (fs other : FS) (name : GoString)
    (h : other.files name = fs.files name) :
    Ioutil.ReadFile other name = Ioutil.ReadFile fs name := by
  simp only [Ioutil.ReadFile, h]

theorem List_congr (d : DeviceCgroup) (fs other : FS)
    (h : other.files d.getDevicesListPath = fs.files d.getDevicesListPath) :
    d.List other = d.List fs := by
  simp only [DeviceCgroup.List, ReadFile_congr fs other _ h]

/-- C9.  The operations of a handle that `Load` returned do not validate again; `fs` is the
file system at the time of the call, whatever it has become.  `List` reads `devices.list`
under the path the handle was loaded for and nothing else: it returns an error exactly when
that file cannot be read, the error is the one of the read and comes with no entry, and the
result is the same in every file system that stores the same file there, so also after
`devices.allow` or `devices.deny` was deleted; after `devices.list` was deleted it fails.
`Allow` and `Deny` likewise fail when their own control file cannot be opened, so after it
was deleted, and their error and what they leave in their file are the same in every file
system that stores the same file there. -/
theorem operations_consult_own_control_file (start : FS) (path : GoString) (d : DeviceCgroup)
    (hload : Load start path = .ok d) (fs : FS) :
    d.getDevicesListPath = Filepath.Join [path, "devices.list".toList] ∧
    (∀ err, Ioutil.ReadFile fs d.getDevicesListPath = .error err →
      d.List fs = ([], some err)) ∧
    ((d.List fs).2 ≠ none ↔ ∃ err, Ioutil.ReadFile fs d.getDevicesListPath = .error err) ∧
    (∀ other : FS, other.files d.getDevicesListPath = fs.files d.getDevicesListPath →
      d.List other = d.List fs) ∧
    d.List (fs.remove d.getDevicesAllowPath) = d.List fs ∧
    d.List (fs.remove d.getDevicesDenyPath) = d.List fs ∧
    (d.List (fs.remove d.getDevicesListPath)).2 ≠ none ∧
    (∀ entries err, Os.OpenFile fs d.getDevicesAllowPath = .error err →
      (d.Allow fs entries).2 = some err) ∧
    (∀ entries, (d.Allow (fs.remove d.getDevicesAllowPath) entries).2 ≠ none) ∧
    (∀ entries (other : FS),
      other.files d.getDevicesAllowPath = fs.files d.getDevicesAllowPath →
      (d.Allow other entries).2 = (d.Allow fs entries).2 ∧
        (d.Allow other entries).1.files d.getDevicesAllowPath =
          (d.Allow fs entries).1.files d.getDevicesAllowPath) ∧
    (∀ entries err, Os.OpenFile fs d.getDevicesDenyPath = .error err →
      (d.Deny fs entries).2 = some err) ∧
    (∀ entries, (d.Deny (fs.remove d.getDevicesDenyPath) entries).2 ≠ none) ∧
    (∀ entries (other : FS),
      other.files d.getDevicesDenyPath = fs.files d.getDevicesDenyPath →
      (d.Deny other entries).2 = (d.Deny fs entries).2 ∧
        (d.Deny other entries).1.files d.getDevicesDenyPath =
          (d.Deny fs entries).1.files d.getDevicesDenyPath) := by
  have hd := Load_ok_handle start path d hload
  refine ⟨?_, ?_, ?_, ?_, ?_, ?_, ?_, ?_, ?_, ?_, ?_, ?_, ?_⟩
  · rw [hd]
    rfl
  · intro err h
    simp only [DeviceCgroup.List, h]
  · constructor
    · intro h
      cases hr : Ioutil.ReadFile fs d.getDevicesListPath with
      | error err => exact ⟨err, rfl⟩
      | ok content =>
        exfalso
        apply h
        rw [List_of_read_ok d fs content hr]
        split <;> rfl
    · rintro ⟨err, h⟩
      simp [DeviceCgroup.List, h]
  · intro other h
    exact List_congr d fs other h
  · apply List_congr
    simp [FS.remove, (getDevicesAllowPath_ne_list d).symm]
  · apply List_congr
    simp [FS.remove, (getDevicesDenyPath_ne_list d).symm]
  · simp [DeviceCgroup.List, Ioutil.ReadFile, FS.remove]
  · intro entries err h
    simp only [DeviceCgroup.Allow, h]
  · intro entries
    simp [DeviceCgroup.Allow, Os.OpenFile, FS.remove]
  · intro entries other h
    rw [Allow_eq_appendEntriesTo, Allow_eq_appendEntriesTo]
    exact appendEntriesTo_congr d fs other _ entries h
  · intro entries err h
    simp only [DeviceCgroup.Deny, h]
  · intro entries
    simp [DeviceCgroup.Deny, Os.OpenFile, FS.remove]
  · intro entries other h
    rw [Deny_eq_appendEntriesTo, Deny_eq_appendEntriesTo]
    exact appendEntriesTo_congr d fs other _ entries h

/-- C9, witness: `List` after `devices.allow` was deleted, and after `devices.list` was. -/
theorem operations_consult_own_control_file_witness :
    cgroup.List ((listFS "c 1:1 rwm".toList).remove cgroup.getDevicesAllowPath) =
        cgroup.List (listFS "c 1:1 rwm".toList) ∧
      (cgroup.List ((listFS "c 1:1 rwm".toList).remove cgroup.getDevicesListPath)).2 ≠ none :=
  have h := operations_consult_own_control_file (listFS []) "/cg".toList cgroup rfl
    (listFS "c 1:1 rwm".toList)
  ⟨h.2.2.2.2.1, h.2.2.2.2.2.2.1⟩

/-- The kernel cgroup fixture gives what `system_tests/devicecgroup_system_test.go` expects:
after `Deny("a")`, allowing `/dev/zero`, `/dev/null` and `/dev/random` lists the three
rules in that order, and denying the first and the last of them lists `/dev/null` only. -/
theorem kernelFS_replays_system_test :
    cgroup.List (cgroup.Allow (cgroup.Deny (kernelFS "a *:* rwm\n".toList) ["a".toList]).1
        ["c 1:5 rwm".toList, "c 1:3 rwm".toList, "c 1:8 rwm".toList]).1 =
      (["c 1:5 rwm".toList, "c 1:3 rwm".toList, "c 1:8 rwm".toList], none) ∧
    cgroup.List (cgroup.Deny (cgroup.Allow
        (cgroup.Deny (kernelFS "a *:* rwm\n".toList) ["a".toList]).1
        ["c 1:5 rwm".toList, "c 1:3 rwm".toList, "c 1:8 rwm".toList]).1
        ["c 1:5 rwm".toList, "c 1:8 rwm".toList]).1 =
      (["c 1:3 rwm".toList], none) := by
  decide

/-! ## Reading back what was written -/

/-- C10.  Reading back what was written: for a non-empty sequence of entries that are not
empty, hold no newline and neither start nor end with white space, the bytes `Allow` (or
`Deny`) writes to its empty control file when every write succeeds are
`e1 + "\n" + ... + en + "\n"`, and `List` on a `devices.list` holding exactly these bytes
returns the entries themselves, in the same number and order.  Without the conditions the
result can differ: an empty last entry is lost, and so are the leading white space of the
first entry and the trailing white space of the last. -/
theorem List_reads_back_written_lines :
    (∀ (d : DeviceCgroup) (fs : FS) (entries : Strings), entries ≠ [] →
      (∀ e ∈ entries, e ≠ [] ∧ '\n' ∉ e ∧ Strings.hasLeadingSpace e = false ∧
        Strings.hasTrailingSpace e = false) →
      (∀ f, Os.OpenFile fs d.getDevicesAllowPath = .ok f → f.content = [] →
        AllWritesSucceed d.fprinter f entries →
        ∃ g, (d.Allow fs entries).1.files d.getDevicesAllowPath = some g ∧
          g.content = writtenLines entries ∧
          ∀ later : FS, Ioutil.ReadFile later d.getDevicesListPath = .ok g.content →
            d.List later = (entries, none)) ∧
      (∀ f, Os.OpenFile fs d.getDevicesDenyPath = .ok f → f.content = [] →
        AllWritesSucceed d.fprinter f entries →
        ∃ g, (d.Deny fs entries).1.files d.getDevicesDenyPath = some g ∧
          g.content = writtenLines entries ∧
          ∀ later : FS, Ioutil.ReadFile later d.getDevicesListPath = .ok g.content →
            d.List later = (entries, none)) ∧
      (∀ later : FS, Ioutil.ReadFile later d.getDevicesListPath = .ok (writtenLines entries) →
        d.List later = (entries, none))) ∧
    (((cgroup.Allow (allowFS (some (plainFile []))) ["a".toList, []]).1.files
          cgroup.getDevicesAllowPath).map (fun g => cgroup.List (listFS g.content)) =
        some (["a".toList], none) ∧
      ["a".toList] ≠ ["a".toList, []]) ∧
    (((cgroup.Allow (allowFS (some (plainFile []))) [" a".toList, "b".toList]).1.files
          cgroup.getDevicesAllowPath).map (fun g => cgroup.List (listFS g.content)) =
        some (["a".toList, "b".toList], none) ∧
      ["a".toList, "b".toList] ≠ [" a".toList, "b".toList]) ∧
    (((cgroup.Deny (denyFS (some (plainFile []))) ["a".toList, "b ".toList]).1.files
          cgroup.getDevicesDenyPath).map (fun g => cgroup.List (listFS g.content)) =
        some (["a".toList, "b".toList], none) ∧
      ["a".toList, "b".toList] ≠ ["a".toList, "b ".toList]) := by
  refine ⟨?_, by decide, by decide, by decide⟩
  intro d fs entries hne h
  have hw : writtenLines entries ≠ [] := by
    rw [writtenLines_eq_Join entries hne]
    simp
  have hback : ∀ later : FS,
      Ioutil.ReadFile later d.getDevicesListPath = .ok (writtenLines entries) →
      d.List later = (entries, none) := by
    intro later hread
    rw [List_of_read_ok d later _ hread, if_neg (by simpa using hw),
      Strings.TrimSpace_writtenLines entries hne (fun e he => ⟨(h e he).1, (h e he).2.2⟩),
      Strings.Split_Join entries _ hne (fun e he => (h e he).2.1)]
  refine ⟨?_, ?_, hback⟩
  · intro f hopen hempty hsucceed
    have hc : (f.acceptLines entries).content = writtenLines entries := by
      rw [File.acceptLines_content, hempty, List.nil_append]
    refine ⟨f.acceptLines entries, ?_, hc, ?_⟩
    · simp [DeviceCgroup.Allow, hopen, writeEntryTo_of_succeed d f entries hsucceed, FS.store]
    · intro later hread
      rw [hc] at hread
      exact hback later hread
  · intro f hopen hempty hsucceed
    have hc : (f.acceptLines entries).content = writtenLines entries := by
      rw [File.acceptLines_content, hempty, List.nil_append]
    refine ⟨f.acceptLines entries, ?_, hc, ?_⟩
    · simp [DeviceCgroup.Deny, hopen, writeEntryTo_of_succeed d f entries hsucceed, FS.store]
    · intro later hread
      rw [hc] at hread
      exact hback later hread

/-- C10, witness: two well-formed entries allowed on an empty `devices.allow` are read back
from a `devices.list` holding the bytes written. -/
theorem List_reads_back_written_lines_witness :
    ∃ g, (cgroup.Allow (allowFS (some (plainFile [])))
        ["c 1:5 rwm".toList, "c 1:3 rwm".toList]).1.files cgroup.getDevicesAllowPath = some g ∧
      g.content = "c 1:5 rwm\nc 1:3 rwm\n".toList ∧
      cgroup.List (listFS g.content) = (["c 1:5 rwm".toList, "c 1:3 rwm".toList], none) := by
  obtain ⟨g, hg, hc, hl⟩ :=
    (List_reads_back_written_lines.1 cgroup (allowFS (some (plainFile [])))
      ["c 1:5 rwm".toList, "c 1:3 rwm".toList] (by decide) (by decide)).1 (plainFile [])
      (by decide) rfl (by simp only [AllWritesSucceed, WriteSucceeds]; decide)
  refine ⟨g, hg, hc, hl (listFS g.content) ?_⟩
  rw [hc]
  decide
